import Mathlib

/-!
Verification development for the playground-link bot (tjjfvi/community-bot).

Text is modelled as a list of UTF-16-style characters (`Txt := List Char`),
matching JavaScript string semantics for the character sets that occur here
(all relevant characters are in the BMP, so JS `.length`, `.slice`, indexing
and our `List` operations agree).  The two source files embedded are
`src/modules/playground.ts` and `src/util/findCodeblockFromChannel.ts`.
External collaborators (the lz-string decompressor, the prettier formatter)
are passed in as function parameters, exactly at the boundary the source
calls them.
-/

abbrev Txt := List Char

/-- JavaScript `String.prototype.split` with a single-character separator:
`"".split(sep)` is `[""]`, a trailing separator yields a trailing empty
piece. -/
def splitOnChar (sep : Char) : Txt → List Txt
  | [] => [[]]
  | c :: cs =>
    let r := splitOnChar sep cs
    if c = sep then [] :: r
    else
      match r with
      | [] => [[c]]
      | l :: ls => (c :: l) :: ls

/-- `DEFAULT_EMBED_LENGTH` from `src/modules/playground.ts`. -/
def DEFAULT_EMBED_LENGTH : Nat := 256

/-- `MAX_EMBED_LENGTH` from `src/modules/playground.ts`. -/
def MAX_EMBED_LENGTH : Nat := 512

/-- The `cumulativeLineLengths` array of `createPlaygroundEmbed`
(`src/modules/playground.ts` lines 127-135):
`unzipped.split('\n').map(l => l.length).reduce((acc, len, i) =>
{ acc.push(len + acc[i] + '\n'.length); return acc }, [0])`. -/
def cumulativeLineLengths (text : Txt) : List Nat :=
  let lines := splitOnChar '\n' text
  let lineLengths := lines.map List.length
  lineLengths.enum.foldl (fun acc p => acc ++ [p.2 + acc.getD p.1 0 + 1]) [0]

/-- The normalized selection of the spec's data model (§3): four independently
optional 0-indexed fields. -/
structure Selection where
  startLine : Option Nat
  startColumn : Option Nat
  endLine : Option Nat
  endColumn : Option Nat
deriving DecidableEq

/-- `startChar` of `createPlaygroundEmbed` (line 138):
`cumulativeLineLengths[startLine ?? 0]`; a JS out-of-range index is
`undefined`, modelled as `none`. -/
def startCharOf (text : Txt) (sel : Selection) : Option Nat :=
  (cumulativeLineLengths text)[sel.startLine.getD 0]?

/-- The `endChar` fallback of `createPlaygroundEmbed` (lines 142-146):
`cumulativeLineLengths.find(len => len > cutoff) ??
 cumulativeLineLengths[cumulativeLineLengths.length - 1]` with
`cutoff = Math.min(startChar + DEFAULT_EMBED_LENGTH, unzipped.length)`.
When `startChar` is `undefined`, `cutoff` is `NaN` and `len > NaN` is false
for every entry, so `find` misses and the last entry is used. -/
def fallbackEnd (text : Txt) (sel : Selection) : Option Nat :=
  let cll := cumulativeLineLengths text
  match startCharOf text sel with
  | some sc =>
    (cll.find? (fun len => decide (min (sc + DEFAULT_EMBED_LENGTH) text.length < len))).orElse
      (fun _ => cll.getLast?)
  | none => cll.getLast?

/-- `endChar` of `createPlaygroundEmbed` (lines 143-146):
`endLine ? cumulativeLineLengths[endLine] : <fallback>`.  The JS condition is
a truthiness test, so both an unset `endLine` and `endLine = 0` take the
fallback branch. -/
def endCharOf (text : Txt) (sel : Selection) : Option Nat :=
  match sel.endLine with
  | some e => if e = 0 then fallbackEnd text sel else (cumulativeLineLengths text)[e]?
  | none => fallbackEnd text sel

/-- JavaScript `String.prototype.slice` with two (possibly negative)
arguments. -/
def jsSlice (s : Txt) (a b : Int) : Txt :=
  let len : Int := s.length
  let lo := if a < 0 then max (len + a) 0 else min a len
  let hi := if b < 0 then max (len + b) 0 else min b len
  if lo < hi then (s.take hi.toNat).drop lo.toNat else []

/-- `prettyEnd` of `createPlaygroundEmbed` (line 157):
`pretty.length - (unzipped.length - endChar)` in JS number arithmetic,
modelled over `Int`. -/
def prettyEndOf (pretty text : Txt) (endChar : Nat) : Int :=
  (pretty.length : Int) - ((text.length : Int) - (endChar : Int))

/-- `maxEnd` of `createPlaygroundEmbed` (line 158):
`Math.min(prettyEnd, startChar + MAX_EMBED_LENGTH)`. -/
def maxEndOf (pretty text : Txt) (startChar endChar : Nat) : Int :=
  min (prettyEndOf pretty text endChar) ((startChar : Int) + (MAX_EMBED_LENGTH : Int))

/-- `extract` of `createPlaygroundEmbed` (line 159):
`pretty.slice(startChar, maxEnd)`. -/
def extractOf (pretty text : Txt) (startChar endChar : Nat) : Txt :=
  jsSlice pretty (startChar : Int) (maxEndOf pretty text startChar endChar)

/-! ## JavaScript number semantics for the query-parameter decoder -/

/-- A JavaScript number restricted to the values this code can produce:
either `NaN` or an integer. -/
inductive JSNum where
  | nan : JSNum
  | int (n : Int) : JSNum
deriving DecidableEq

/-- JS strict equality `===` on numbers: `NaN === x` is false for every `x`
(including `NaN` itself). -/
def jsStrictEq : JSNum → JSNum → Bool
  | JSNum.int a, JSNum.int b => a == b
  | _, _ => false

/-- JS `<` on numbers: any comparison with `NaN` is false. -/
def jsLt : JSNum → JSNum → Bool
  | JSNum.int a, JSNum.int b => decide (a < b)
  | _, _ => false

/-- JS `-` on numbers: `NaN` propagates. -/
def jsSub : JSNum → JSNum → JSNum
  | JSNum.int a, JSNum.int b => JSNum.int (a - b)
  | _, _ => JSNum.nan

def isJsWS (c : Char) : Bool :=
  c == ' ' || c == '\t' || c == '\n' || c == '\r' || c == '\x0b' || c == '\x0c'

def natOfDigits (ds : Txt) : Nat :=
  ds.foldl (fun acc c => 10 * acc + (c.toNat - 48)) 0

/-- Models JS `Number(string)` on the sub-language that matters here:
whitespace is trimmed, the empty string is `0`, an optionally signed
non-empty decimal digit string is that integer, and every other string is
`NaN`.  (Real JS additionally accepts floats, hex and exponent forms; those
inputs are mapped to `NaN` by this model and no claim below depends on
them.) -/
def jsNumberOfTxt (s : Txt) : JSNum :=
  let t := ((s.dropWhile isJsWS).reverse.dropWhile isJsWS).reverse
  if t = [] then JSNum.int 0
  else
    match t with
    | '-' :: ds =>
      if ds ≠ [] ∧ ds.all Char.isDigit then JSNum.int (-(natOfDigits ds : Int)) else JSNum.nan
    | '+' :: ds =>
      if ds ≠ [] ∧ ds.all Char.isDigit then JSNum.int (natOfDigits ds) else JSNum.nan
    | ds =>
      if ds.all Char.isDigit then JSNum.int (natOfDigits ds) else JSNum.nan

def isHexDig (c : Char) : Bool :=
  c.isDigit || ('a' ≤ c && c ≤ 'f') || ('A' ≤ c && c ≤ 'F')

def hexVal (c : Char) : Nat :=
  if c.isDigit then c.toNat - 48
  else if 'a' ≤ c ∧ c ≤ 'f' then c.toNat - 87
  else if 'A' ≤ c ∧ c ≤ 'F' then c.toNat - 55
  else 0

/-- `application/x-www-form-urlencoded` percent-decoding on the byte level:
`+` becomes a space and `%XX` with two hex digits becomes the character with
that code (multi-byte UTF-8 sequences are not reassembled; no claim depends
on them). -/
def formUrlDecode : Txt → Txt
  | [] => []
  | '+' :: rest => ' ' :: formUrlDecode rest
  | '%' :: a :: b :: rest' =>
    if isHexDig a && isHexDig b then
      Char.ofNat (16 * hexVal a + hexVal b) :: formUrlDecode rest'
    else '%' :: formUrlDecode (a :: b :: rest')
  | c :: rest => c :: formUrlDecode rest

/-- Split a query segment at its first `=`: the URL standard's name/value
split (a segment without `=` has an empty value). -/
def splitFirstEq (seg : Txt) : Txt × Txt :=
  let n := seg.takeWhile (fun c => !(c == '='))
  (n, (seg.drop n.length).drop 1)

/-- Models `new URLSearchParams(query)`: strips one leading `?`, splits on
`&`, drops empty segments, splits each at the first `=` and form-urldecodes
names and values. -/
def parseQuery (q : Txt) : List (Txt × Txt) :=
  let q' := match q with | '?' :: r => r | _ => q
  ((splitOnChar '&' q').filter (fun seg => !(seg == []))).map
    (fun seg =>
      let p := splitFirstEq seg
      (formUrlDecode p.1, formUrlDecode p.2))

/-- `URLSearchParams.get`: the first value recorded for the name, or `null`
(`none`). -/
def paramsGet (params : List (Txt × Txt)) (name : Txt) : Option Txt :=
  (params.find? (fun p => p.1 == name)).map (fun p => p.2)

/-- `getPosFromPGURLParam` (`src/modules/playground.ts` lines 210-215):
`const p = params.get(name); if (p === null) return undefined;
const n = Number(p); return n === NaN || n < 1 ? undefined : n - 1;`.
Note that the source's `n === NaN` test is JS strict equality, which is
false even when `n` is `NaN`. -/
def getPosFromPGURLParam (params : List (Txt × Txt)) (name : Txt) : Option JSNum :=
  match paramsGet params name with
  | none => none
  | some p =>
    let n := jsNumberOfTxt p
    if jsStrictEq n JSNum.nan || jsLt n (JSNum.int 1) then none
    else some (jsSub n (JSNum.int 1))

/-- A decoded cursor/anchor point before ordering (`{line, column}` in
`getSelectionFromQuery`). -/
structure RawPoint where
  line : Option JSNum
  column : Option JSNum
deriving DecidableEq

/-- The sort key `(p.line ?? 0)` used by the comparator in
`getSelectionFromQuery`: `undefined` coalesces to `0`, `NaN` stays `NaN`. -/
def lineKey (p : RawPoint) : JSNum :=
  match p.line with
  | none => JSNum.int 0
  | some v => v

/-- `[cursorPosition, selectionPosition].sort((a, b) => (a.line ?? 0) - (b.line ?? 0))`
on a two-element array: ECMAScript sort is stable and swaps exactly when the
comparator value is a number greater than zero (a `NaN` comparator value is
treated as `+0`). -/
def sort2 (a b : RawPoint) : RawPoint × RawPoint :=
  match jsSub (lineKey a) (lineKey b) with
  | JSNum.int d => if 0 < d then (b, a) else (a, b)
  | JSNum.nan => (a, b)

/-- The resolver's output record (`{startLine, startColumn, endLine,
endColumn}`), with fields still in JS-number form. -/
structure RawSelection where
  startLine : Option JSNum
  startColumn : Option JSNum
  endLine : Option JSNum
  endColumn : Option JSNum
deriving DecidableEq

/-- `getSelectionFromQuery` (`src/modules/playground.ts` lines 186-208). -/
def getSelectionFromQuery (query : Txt) : RawSelection :=
  let params := parseQuery query
  let cursorPosition : RawPoint :=
    ⟨getPosFromPGURLParam params "pln".data, getPosFromPGURLParam params "pc".data⟩
  let selectionPosition : RawPoint :=
    ⟨getPosFromPGURLParam params "ssl".data, getPosFromPGURLParam params "ssc".data⟩
  let se := sort2 cursorPosition selectionPosition
  ⟨se.1.line, se.1.column, se.2.line, se.2.column⟩

/-! ## The fenced-codeblock matcher

`CODEBLOCK_REGEX = /```(?:ts|typescript)?\n([\s\S]+)```/` implemented as an
explicit matcher: the engine scans start positions left to right; at a
position it requires the opening fence, tries the tag alternatives in order
(`ts`, `typescript`, empty), requires a newline, and the greedy non-empty
body extends to the last closing fence in the remainder. -/

def tickFence : Txt := ['`', '`', '`']

/-- The greedy body end: the largest `k ≥ 1` such that the closing fence is
a prefix of `rest.drop k`. -/
def lastBodyEnd (rest : Txt) : Option Nat :=
  ((List.range (rest.length + 1)).filter
    (fun k => decide (1 ≤ k) && tickFence.isPrefixOf (rest.drop k))).getLast?

def cbTag (rest tag : Txt) : Option Txt :=
  if (tag ++ ['\n']).isPrefixOf rest then
    match lastBodyEnd (rest.drop (tag.length + 1)) with
    | some k => some ((rest.drop (tag.length + 1)).take k)
    | none => none
  else none

def cbMatchAt (s : Txt) : Option Txt :=
  if tickFence.isPrefixOf s then
    (cbTag (s.drop 3) "ts".data).orElse fun _ =>
      (cbTag (s.drop 3) "typescript".data).orElse fun _ =>
        cbTag (s.drop 3) []
  else none

/-- `CODEBLOCK_REGEX.exec(content)`, returning capture group 1 (the body) of
the first match, or `none`. -/
def cbExec (s : Txt) : Option Txt :=
  match cbMatchAt s with
  | some b => some b
  | none =>
    match s with
    | [] => none
    | _ :: rest => cbExec rest

/-! ## The playground-link matcher

`PLAYGROUND_REGEX` from `src/util/findCodeblockFromChannel.ts`:
`/https?:\/\/(?:www\.)?typescriptlang\.org\/(?:play|dev\/bug-workbench)(?:\/index\.html)?\/?(\??(?:\w+=[^\s#&]+)?(?:\&\w+=[^\s#&]+)*)#code\/([\w\-+_]+={0,4})/`
implemented as a deterministic matcher.  Determinism is faithful because at
every choice point the alternatives are prefix-disjoint and every repeated
character class excludes the character that must follow it (`=` is not a
word character, and `&`, `#` are not value characters), so the greedy choice
is the only one a backtracking engine can commit to. -/

def isWordChar (c : Char) : Bool := c.isAlphanum || c == '_'

def isValChar (c : Char) : Bool := !(isJsWS c || c == '#' || c == '&')

def isPayloadChar (c : Char) : Bool := isWordChar c || c == '-' || c == '+'

def stripPre (p s : Txt) : Option Txt :=
  if p.isPrefixOf s then some (s.drop p.length) else none

def optPre (p s : Txt) : Txt :=
  if p.isPrefixOf s then s.drop p.length else s

/-- One `\w+=[^\s#&]+` unit; returns the matched text and the remainder. -/
def pgParam (s : Txt) : Option (Txt × Txt) :=
  let n := s.takeWhile isWordChar
  if n = [] then none
  else
    match s.drop n.length with
    | '=' :: rest =>
      let v := rest.takeWhile isValChar
      if v = [] then none else some (n ++ '=' :: v, rest.drop v.length)
    | _ => none

/-- The `(?:\&\w+=[^\s#&]+)*` repetition (fuelled; each step consumes at
least one character, so fuel `s.length` is always enough). -/
def pgAmpParams : Nat → Txt → Txt × Txt
  | 0, s => ([], s)
  | Nat.succ fuel, s =>
    match s with
    | '&' :: rest =>
      match pgParam rest with
      | some pr =>
        let tail := pgAmpParams fuel pr.2
        ('&' :: (pr.1 ++ tail.1), tail.2)
      | none => ([], s)
    | _ => ([], s)

/-- Match `PLAYGROUND_REGEX` anchored at the start of `s`; returns
`(capture 1, capture 2)`, i.e. the query string and the encoded payload. -/
def pgMatchAt (s : Txt) : Option (Txt × Txt) :=
  match stripPre "http".data s with
  | none => none
  | some s1 =>
    let s2 := optPre "s".data s1
    match stripPre "://".data s2 with
    | none => none
    | some s3 =>
      let s4 := optPre "www.".data s3
      match stripPre "typescriptlang.org/".data s4 with
      | none => none
      | some s5 =>
        match (stripPre "play".data s5).orElse (fun _ => stripPre "dev/bug-workbench".data s5) with
        | none => none
        | some s6 =>
          let s7 := optPre "/index.html".data s6
          let s8 := optPre "/".data s7
          let q0s9 : Txt × Txt := match s8 with | '?' :: r => (['?'], r) | _ => ([], s8)
          let p1s10 : Txt × Txt :=
            match pgParam q0s9.2 with | some pr => pr | none => ([], q0s9.2)
          let pss11 := pgAmpParams p1s10.2.length p1s10.2
          match stripPre "#code/".data pss11.2 with
          | none => none
          | some s12 =>
            let code := s12.takeWhile isPayloadChar
            if code = [] then none
            else
              let eqs := ((s12.drop code.length).takeWhile (fun c => c == '=')).take 4
              some (q0s9.1 ++ p1s10.1 ++ pss11.1, code ++ eqs)

/-- `PLAYGROUND_REGEX.exec(content)`: first match over all start positions;
returns `(capture 1, capture 2) = (query, payload)`. -/
def pgExec (s : Txt) : Option (Txt × Txt) :=
  match pgMatchAt s with
  | some r => some r
  | none =>
    match s with
    | [] => none
    | _ :: rest => pgExec rest

/-! ## The message scanners -/

/-- The slice of a Discord message that the scanners read: the author's bot
flag, the text content, and the embeds' URLs (an embed's `url` may be
`undefined`, hence `Option`). -/
structure ScanMsg where
  bot : Bool
  content : Txt
  embedUrls : List (Option Txt)
deriving DecidableEq

/-- The embed loop of `findCodeFromChannel` (lines 44-49):
`for (const embed of embeds) { const match = embed.url?.match(PLAYGROUND_REGEX);
 if (match) return decompressFromEncodedURIComponent(match[1]); }`.
`some r` means the loop returned `r`; `none` means it fell through. -/
def findInEmbeds (decompress : Txt → Option Txt) : List (Option Txt) → Option (Option Txt)
  | [] => none
  | u :: rest =>
    match u with
    | some url =>
      match pgExec url with
      | some qc => some (decompress qc.1)
      | none => findInEmbeds decompress rest
    | none => findInEmbeds decompress rest

/-- `findCodeFromChannel` (`src/util/findCodeblockFromChannel.ts` lines
28-51), with the fetched messages and the lz-string decompressor passed in.
The JS function can return a string, `null` (a failed decompression is
returned as-is) or `undefined` (the loop ran out); these are modelled as
`some (some s)`, `some none` and `none`.  Note the source passes
`match[1]` — the query-string capture — to the decompressor. -/
def findCodeFromChannel (decompress : Txt → Option Txt) : List ScanMsg → Option (Option Txt)
  | [] => none
  | m :: rest =>
    match
      (if m.bot then none
       else
         match cbExec m.content with
         | some b => if b.length ≠ 0 then some b else none
         | none => none : Option Txt)
    with
    | some b => some (some b)
    | none =>
      match pgExec m.content with
      | some qc => some (decompress qc.1)
      | none =>
        match findInEmbeds decompress m.embedUrls with
        | some r => some r
        | none => findCodeFromChannel decompress rest

/-- `findCodeblockFromChannel` (`src/util/findCodeblockFromChannel.ts` lines
8-22): filter out bot authors, `shift()` when `ignoreLatest`, then
`msgs.map(m => CODEBLOCK_REGEX.exec(m.content)).map(x => x ? x[1] : '')
.filter(x => x !== '')[0]`. -/
def findCodeblockFromChannel (ignoreLatest : Bool) (msgs : List ScanMsg) : Option Txt :=
  let filtered := msgs.filter (fun m => !m.bot)
  let msgs' := if ignoreLatest then filtered.drop 1 else filtered
  (((msgs'.map (fun m => cbExec m.content)).map (fun x => x.getD [])).filter
    (fun x => !(x == []))).head?

/-! ## The code-block renderer -/

/-- `escapeCode` (`src/util/findCodeblockFromChannel.ts` lines 71-73):
`code.replace(/`(?=`)/g, '`\u200B')` — a zero-width space is inserted after
every backtick that is immediately followed by another backtick. -/
def escapeCode : Txt → Txt
  | [] => []
  | [c] => [c]
  | c :: c' :: rest =>
    if c = '`' ∧ c' = '`' then c :: '\u200B' :: escapeCode (c' :: rest)
    else c :: escapeCode (c' :: rest)

/-- `CODEBLOCK` constant from `src/util/findCodeblockFromChannel.ts`. -/
def CODEBLOCK : Txt := "```".data

/-- `DISCORD_MAX_LENGTH` from `src/util/findCodeblockFromChannel.ts`. -/
def DISCORD_MAX_LENGTH : Nat := 2048

/-- `MAX_CODE_LENGTH = DISCORD_MAX_LENGTH - `${CODEBLOCK}ts\n${CODEBLOCK}`.length`. -/
def MAX_CODE_LENGTH : Nat :=
  DISCORD_MAX_LENGTH - (CODEBLOCK ++ "ts\n".data ++ CODEBLOCK).length

/-- `makeCodeBlock` (`src/util/findCodeblockFromChannel.ts` lines 58-65). -/
def makeCodeBlock (code : Txt) : Txt :=
  let escaped := escapeCode code
  let truncated :=
    if MAX_CODE_LENGTH < escaped.length then
      jsSlice escaped 0 ((MAX_CODE_LENGTH : Int) - 1) ++ ['…']
    else escaped
  CODEBLOCK ++ "ts".data ++ ['\n'] ++ truncated ++ CODEBLOCK

/-! ## The edit handler and its reply cache -/

/-- Modelled from the spec: the `LimitedSizeMap` of
`src/util/limitedSizeMap.ts` is not part of the provided sources; per spec
§4.5 its `get`/`has`/`delete` are standard mapping semantics, modelled here
as an association list from message id to the bot reply's message id. -/
def lookupA (l : List (String × Nat)) (k : String) : Option Nat :=
  (l.find? (fun p => p.1 == k)).map (fun p => p.2)

/-- Modelled from the spec: `LimitedSizeMap.delete` with standard mapping
semantics (remove the entry for the key). -/
def eraseA (l : List (String × Nat)) (k : String) : List (String × Nat) :=
  l.filter (fun p => !(p.1 == k))

/-- Edit a tracked bot message's content (`botMsg.edit(...)` in the chat
client): replace the stored content for that reply id. -/
def updateA (l : List (Nat × Txt)) (k : Nat) (v : Txt) : List (Nat × Txt) :=
  l.map (fun p => if p.1 = k then (p.1, v) else p)

/-- The slice of the edited message `onLongFix` reads. -/
structure EditMsg where
  bot : Bool
  id : String
  content : Txt
deriving DecidableEq

/-- The state `onLongFix` touches: the `editedLongLink` cache (message id →
bot reply id) and the contents of the bot's reply messages. -/
structure WorldState where
  cache : List (String × Nat)
  replies : List (Nat × Txt)
deriving DecidableEq

/-- `onLongFix` (`src/modules/playground.ts` lines 99-107):
`const exec = PLAYGROUND_REGEX.exec(msg.content);
 if (msg.author.bot || !this.editedLongLink.has(msg.id) || exec) return;
 const botMsg = this.editedLongLink.get(msg.id);
 await botMsg?.edit(''); this.editedLongLink.delete(msg.id);`. -/
def onLongFix (w : WorldState) (m : EditMsg) : WorldState :=
  if m.bot || !(lookupA w.cache m.id).isSome || (pgExec m.content).isSome then w
  else
    match lookupA w.cache m.id with
    | some r => ⟨eraseA w.cache m.id, updateA w.replies r []⟩
    | none => ⟨eraseA w.cache m.id, w.replies⟩

/-! ## Proof-level auxiliary definitions -/

/-- The offsets produced after a running offset `a`: the closed form of the
`reduce` in `cumulativeLineLengths`. -/
def offs (a : Nat) : List Nat → List Nat
  | [] => []
  | l :: ls => (l + a + 1) :: offs (l + a + 1) ls

/-- Two adjacent characters that do not form a double backtick. -/
def NoTickPair (a b : Char) : Prop := ¬(a = '`' ∧ b = '`')

/-! # Theorems -/

theorem splitOnChar_ne_nil (sep : Char) (s : Txt) : splitOnChar sep s ≠ [] := by
  cases s with
  | nil => simp [splitOnChar]
  | cons c cs =>
    simp only [splitOnChar]
    split
    · simp
    · split <;> simp

theorem splitOnChar_sum (sep : Char) (s : Txt) :
    ((splitOnChar sep s).map List.length).sum + (splitOnChar sep s).length = s.length + 1 := by
  induction s with
  | nil => simp [splitOnChar]
  | cons c cs ih =>
    by_cases hc : c = sep
    · simp only [splitOnChar, if_pos hc, List.map_cons, List.sum_cons, List.length_cons,
        List.length_nil]
      omega
    · rcases hr : splitOnChar sep cs with _ | ⟨l, ls⟩
      · exact absurd hr (splitOnChar_ne_nil sep cs)
      · rw [hr] at ih
        simp only [splitOnChar, if_neg hc, hr, List.map_cons, List.sum_cons,
          List.length_cons] at ih ⊢
        omega

theorem getD_append_len (l : List Nat) (x d : Nat) : (l ++ [x]).getD l.length d = x := by
  induction l with
  | nil => rfl
  | cons a t ih =>
    simp only [List.cons_append, List.length_cons, List.getD_cons_succ]
    exact ih

theorem cllFold (ls : List Nat) :
    ∀ (i : Nat) (acc : List Nat), acc.length = i + 1 →
      List.foldl (fun acc p => acc ++ [p.2 + acc.getD p.1 0 + 1]) acc (List.enumFrom i ls) =
        acc ++ offs (acc.getD i 0) ls := by
  induction ls with
  | nil => intro i acc _; simp [offs]
  | cons l ls ih =>
    intro i acc h
    rw [List.enumFrom_cons, List.foldl_cons]
    have hlen : (acc ++ [l + acc.getD i 0 + 1]).length = (i + 1) + 1 := by simp [h]
    rw [ih (i + 1) _ hlen]
    have hgd : (acc ++ [l + acc.getD i 0 + 1]).getD (i + 1) 0 = l + acc.getD i 0 + 1 := by
      rw [← h]
      exact getD_append_len acc _ 0
    rw [hgd]
    simp [offs, List.append_assoc]

theorem cll_eq (text : Txt) :
    cumulativeLineLengths text =
      0 :: offs 0 ((splitOnChar '\n' text).map List.length) := by
  unfold cumulativeLineLengths
  have h := cllFold ((splitOnChar '\n' text).map List.length) 0 [0] rfl
  simpa [List.enum] using h

theorem offs_chain (ls : List Nat) : ∀ a : Nat, List.Chain' (· ≤ ·) (a :: offs a ls) := by
  induction ls with
  | nil => intro a; simp [offs]
  | cons l ls ih =>
    intro a
    simp only [offs]
    rw [List.chain'_cons]
    exact ⟨by omega, ih (l + a + 1)⟩

theorem offs_last (ls : List Nat) :
    ∀ a : Nat, (a :: offs a ls).getLast? = some (a + ls.sum + ls.length) := by
  induction ls with
  | nil => intro a; simp [offs]
  | cons l ls ih =>
    intro a
    simp only [offs]
    rw [List.getLast?_cons_cons, ih (l + a + 1)]
    simp only [List.sum_cons, List.length_cons, Option.some.injEq]
    omega

/-- Claim C1 (corrected): for every input text, the cumulative line-offset
table is non-decreasing, and its final entry equals the length of the text
*plus one* (the `reduce` adds `'\n'.length` for every line, including the
last). -/
theorem c1_table_monotone_final (text : Txt) :
    List.Chain' (· ≤ ·) (cumulativeLineLengths text) ∧
    (cumulativeLineLengths text).getLast? = some (text.length + 1) := by
  rw [cll_eq]
  refine ⟨offs_chain _ 0, ?_⟩
  rw [offs_last]
  have h := splitOnChar_sum '\n' text
  simp only [Option.some.injEq, List.length_map] at *
  omega

/-- Claim C1 counterexample: for the one-character text `"a"` the final
table entry is `2`, not the text length `1`. -/
theorem c1_counterexample :
    (cumulativeLineLengths "a".data).getLast? ≠ some ("a".data.length) := by decide

/-- Claim C2 (code bug): the source intends `n === NaN || n < 1` to reject a
non-numeric parameter, but `n === NaN` is always false in JS and `NaN < 1`
is also false, so a present non-numeric value such as `pln=x` decodes to
`NaN - 1 = NaN` — a numeric (NaN) position, not "unset". -/
theorem c2_nonnumeric_param_is_nan :
    getPosFromPGURLParam (parseQuery "pln=x".data) "pln".data = some JSNum.nan := by decide

/-- Claim C4 (corrected): when `endLine` is set *and nonzero*, the computed
`endChar` is the line-offset table entry at `endLine`; the JS condition
`endLine ? … : …` is a truthiness test, so `endLine = 0` takes the
default-length fallback just like an unset `endLine`. -/
theorem c4_endline_indexes_table (text : Txt) (sel : Selection) (e : Nat)
    (he : sel.endLine = some e) (hne : e ≠ 0) :
    endCharOf text sel = (cumulativeLineLengths text)[e]? := by
  unfold endCharOf
  rw [he]
  simp [hne]

theorem c4_witness :
    (⟨none, none, some 1, none⟩ : Selection).endLine = some 1 ∧ (1 : Nat) ≠ 0 ∧
    endCharOf "abc\ndef".data ⟨none, none, some 1, none⟩ = some 4 := by
  refine ⟨rfl, by decide, ?_⟩
  rw [c4_endline_indexes_table "abc\ndef".data ⟨none, none, some 1, none⟩ 1 rfl (by decide)]
  decide

/-- Claim C4 counterexample: with `endLine` set to `0` on `"abc\ndef"`, the
code computes `endChar = 8` via the default-length fallback, while the table
entry at index `0` is `0`. -/
theorem c4_counterexample :
    (⟨some 0, none, some 0, none⟩ : Selection).endLine = some 0 ∧
    endCharOf "abc\ndef".data ⟨some 0, none, some 0, none⟩ = some 8 ∧
    (cumulativeLineLengths "abc\ndef".data)[(0 : Nat)]? = some 0 := by decide

theorem sort2_comm (a b : RawPoint) (d₁ d₂ : Int)
    (ha : lineKey a = JSNum.int d₁) (hb : lineKey b = JSNum.int d₂) (h : d₁ ≠ d₂) :
    sort2 a b = sort2 b a := by
  unfold sort2
  rw [ha, hb]
  simp only [jsSub]
  by_cases hlt : 0 < d₁ - d₂
  · rw [if_pos hlt, if_neg (by omega)]
  · rw [if_neg hlt, if_pos (by omega)]

/-- Claim C5 (corrected): swapping which encoded point is the cursor
(`pln`/`pc`) and which is the anchor (`ssl`/`ssc`) yields the identical
normalized selection whenever the two points' sort keys (`line ?? 0`) are
numbers and differ; when the keys are equal (or NaN) the stable sort always
keeps the cursor point first, so swapping exchanges the start/end fields. -/
theorem c5_swap_same_selection (q₁ q₂ : Txt) (d₁ d₂ : Int)
    (h1 : getPosFromPGURLParam (parseQuery q₁) "pln".data =
      getPosFromPGURLParam (parseQuery q₂) "ssl".data)
    (h2 : getPosFromPGURLParam (parseQuery q₁) "pc".data =
      getPosFromPGURLParam (parseQuery q₂) "ssc".data)
    (h3 : getPosFromPGURLParam (parseQuery q₁) "ssl".data =
      getPosFromPGURLParam (parseQuery q₂) "pln".data)
    (h4 : getPosFromPGURLParam (parseQuery q₁) "ssc".data =
      getPosFromPGURLParam (parseQuery q₂) "pc".data)
    (hk1 : lineKey ⟨getPosFromPGURLParam (parseQuery q₁) "pln".data,
      getPosFromPGURLParam (parseQuery q₁) "pc".data⟩ = JSNum.int d₁)
    (hk2 : lineKey ⟨getPosFromPGURLParam (parseQuery q₁) "ssl".data,
      getPosFromPGURLParam (parseQuery q₁) "ssc".data⟩ = JSNum.int d₂)
    (hne : d₁ ≠ d₂) :
    getSelectionFromQuery q₁ = getSelectionFromQuery q₂ := by
  dsimp only [getSelectionFromQuery]
  rw [← h1, ← h2, ← h3, ← h4]
  rw [sort2_comm _ _ d₁ d₂ hk1 hk2 hne]

theorem c5_witness :
    getSelectionFromQuery "pln=3&pc=5&ssl=1&ssc=2".data =
      getSelectionFromQuery "pln=1&pc=2&ssl=3&ssc=5".data :=
  c5_swap_same_selection _ _ 2 0 (by decide) (by decide) (by decide) (by decide)
    (by decide) (by decide) (by decide)

/-- Claim C5 counterexample: the queries `pln=1&pc=1&ssl=1&ssc=2` and its
cursor/anchor swap `pln=1&pc=2&ssl=1&ssc=1` satisfy the swap relation on all
four decoded parameters, yet resolve to different normalized selections
(start/end columns exchanged), because the comparator looks only at lines
and the two-element sort is stable. -/
theorem c5_counterexample :
    (getPosFromPGURLParam (parseQuery "pln=1&pc=1&ssl=1&ssc=2".data) "pln".data =
      getPosFromPGURLParam (parseQuery "pln=1&pc=2&ssl=1&ssc=1".data) "ssl".data) ∧
    (getPosFromPGURLParam (parseQuery "pln=1&pc=1&ssl=1&ssc=2".data) "pc".data =
      getPosFromPGURLParam (parseQuery "pln=1&pc=2&ssl=1&ssc=1".data) "ssc".data) ∧
    (getPosFromPGURLParam (parseQuery "pln=1&pc=1&ssl=1&ssc=2".data) "ssl".data =
      getPosFromPGURLParam (parseQuery "pln=1&pc=2&ssl=1&ssc=1".data) "pln".data) ∧
    (getPosFromPGURLParam (parseQuery "pln=1&pc=1&ssl=1&ssc=2".data) "ssc".data =
      getPosFromPGURLParam (parseQuery "pln=1&pc=2&ssl=1&ssc=1".data) "pc".data) ∧
    getSelectionFromQuery "pln=1&pc=1&ssl=1&ssc=2".data ≠
      getSelectionFromQuery "pln=1&pc=2&ssl=1&ssc=1".data := by decide

/-- Claim C3 (corrected): when a scanned message matches the playground-link
pattern but the decoded payload fails (the decompressor returns `null`), the
scan yields no candidate code and raises no failure — but it *returns* that
empty result immediately (`return decompressFromEncodedURIComponent(match[1])`)
instead of continuing to the next, older message. -/
theorem c3_decode_failure_stops_scan (decompress : Txt → Option Txt)
    (m : ScanMsg) (rest : List ScanMsg) (q c : Txt)
    (hcb : m.bot = true ∨ cbExec m.content = none ∨ cbExec m.content = some [])
    (hpg : pgExec m.content = some (q, c))
    (hdec : decompress q = none) :
    findCodeFromChannel decompress (m :: rest) = some none := by
  unfold findCodeFromChannel
  have hfirst :
      (if m.bot then none
       else
         match cbExec m.content with
         | some b => if b.length ≠ 0 then some b else none
         | none => none : Option Txt) = none := by
    rcases hcb with h | h | h
    · rw [h]; simp
    · rw [h]; simp
    · rw [h]; simp
  rw [hfirst, hpg]
  dsimp only
  rw [hdec]

theorem c3_witness :
    pgExec "https://www.typescriptlang.org/play/#code/ABC".data = some ("".data, "ABC".data) ∧
    findCodeFromChannel (fun _ => none)
      [⟨false, "https://www.typescriptlang.org/play/#code/ABC".data, []⟩] = some none := by
  refine ⟨by decide, ?_⟩
  exact c3_decode_failure_stops_scan (fun _ => none)
    ⟨false, "https://www.typescriptlang.org/play/#code/ABC".data, []⟩ [] "".data "ABC".data
    (Or.inr (Or.inl (by decide))) (by decide) rfl

/-- Claim C3 counterexample: the newest message holds a playground link whose
payload fails to decode and an older message holds a perfectly good fenced
codeblock; the scan returns the failed (`null`) result instead of continuing
to the older message, whose code it would have found. -/
theorem c3_counterexample :
    (pgExec "https://www.typescriptlang.org/play/#code/ABC".data).isSome = true ∧
    findCodeFromChannel (fun _ => none)
      [⟨false, "https://www.typescriptlang.org/play/#code/ABC".data, []⟩,
       ⟨false, "```ts\ngood\n```".data, []⟩] = some none ∧
    findCodeFromChannel (fun _ => none)
      [⟨false, "```ts\ngood\n```".data, []⟩] = some (some "good\n".data) := by decide

/-- Claim C8 (corrected): the source filters out bot-authored messages
*before* applying `shift()`, so when `ignoreLatest` is set, the message
dropped from consideration is the newest *non-bot* message of the fetched
sequence, not the newest message outright. -/
theorem c8_drop_newest_nonbot (msgs : List ScanMsg) :
    findCodeblockFromChannel true msgs =
      findCodeblockFromChannel false ((msgs.filter (fun m => !m.bot)).drop 1) := by
  have hfix : ((msgs.filter (fun m => !m.bot)).drop 1).filter (fun m => !m.bot) =
      (msgs.filter (fun m => !m.bot)).drop 1 :=
    List.filter_eq_self.mpr
      (fun x hx => (List.mem_filter.mp (List.mem_of_mem_drop hx)).2)
  show
    (((((msgs.filter (fun m => !m.bot)).drop 1).map
        (fun m => cbExec m.content)).map (fun x => x.getD [])).filter
      (fun x => !(x == []))).head? =
    ((((((msgs.filter (fun m => !m.bot)).drop 1).filter (fun m => !m.bot)).map
        (fun m => cbExec m.content)).map (fun x => x.getD [])).filter
      (fun x => !(x == []))).head?
  rw [hfix]

/-- Claim C8 counterexample: when the newest fetched message is from a bot,
dropping "the first message of the sequence" (as the claim states) would
leave the non-bot codeblock visible, but the code's filter-then-shift drops
the non-bot message instead and finds nothing. -/
theorem c8_counterexample :
    findCodeblockFromChannel true
      [⟨true, "x".data, []⟩, ⟨false, "```ts\ncode\n```".data, []⟩] = none ∧
    findCodeblockFromChannel false
      ([⟨true, "x".data, []⟩, ⟨false, "```ts\ncode\n```".data, []⟩].drop 1) =
        some "code\n".data ∧
    findCodeblockFromChannel true
      [⟨true, "x".data, []⟩, ⟨false, "```ts\ncode\n```".data, []⟩] ≠
    findCodeblockFromChannel false
      ([⟨true, "x".data, []⟩, ⟨false, "```ts\ncode\n```".data, []⟩].drop 1) := by decide

/-- Claim C9 (corrected): on an edit event from a *non-bot* author, if the
cache tracks the message id and the edited content no longer matches the
playground-link pattern, the tracked reply's content is cleared and the
cache entry removed; if the content still matches, or the id is untracked,
nothing changes.  (The source additionally ignores edits whose author is a
bot — `msg.author.bot` short-circuits the handler — which the claim
omits.) -/
theorem c9_edit_clears_tracked_reply (w : WorldState) (m : EditMsg)
    (hbot : m.bot = false) :
    (∀ r, lookupA w.cache m.id = some r → pgExec m.content = none →
      onLongFix w m = ⟨eraseA w.cache m.id, updateA w.replies r []⟩) ∧
    ((pgExec m.content).isSome = true ∨ lookupA w.cache m.id = none →
      onLongFix w m = w) := by
  constructor
  · intro r hr hpg
    unfold onLongFix
    rw [hbot, hr, hpg]
    simp
  · intro h
    unfold onLongFix
    rcases h with h | h
    · rw [h]
      simp
    · rw [h]
      simp

theorem c9_witness :
    (⟨false, "m1", "hello".data⟩ : EditMsg).bot = false ∧
    lookupA [("m1", 7)] "m1" = some 7 ∧
    pgExec "hello".data = none ∧
    onLongFix ⟨[("m1", 7)], [(7, "orig".data)]⟩ ⟨false, "m1", "hello".data⟩ =
      ⟨eraseA [("m1", 7)] "m1", updateA [(7, "orig".data)] 7 []⟩ := by
  refine ⟨rfl, by decide, by decide, ?_⟩
  exact (c9_edit_clears_tracked_reply ⟨[("m1", 7)], [(7, "orig".data)]⟩
    ⟨false, "m1", "hello".data⟩ rfl).1 7 (by decide) (by decide)

/-- Claim C9 counterexample: a bot-authored edit of a tracked message whose
content no longer contains a link takes no action (the guard
`msg.author.bot || …` returns early), while the claim demands the reply be
cleared and the entry removed whenever the id is tracked and the link is
gone. -/
theorem c9_counterexample :
    lookupA [("m1", 7)] "m1" = some 7 ∧
    pgExec "hello".data = none ∧
    onLongFix ⟨[("m1", 7)], [(7, "orig".data)]⟩ ⟨true, "m1", "hello".data⟩ =
      ⟨[("m1", 7)], [(7, "orig".data)]⟩ := by decide

theorem offs_mem_le (ls : List Nat) :
    ∀ (a x : Nat), x ∈ a :: offs a ls → x ≤ a + ls.sum + ls.length := by
  induction ls with
  | nil =>
    intro a x hx
    simp only [offs, List.mem_singleton] at hx
    simp [hx]
  | cons l ls ih =>
    intro a x hx
    rw [show offs a (l :: ls) = (l + a + 1) :: offs (l + a + 1) ls from rfl] at hx
    rcases List.mem_cons.mp hx with rfl | hx
    · simp only [List.sum_cons, List.length_cons]
      omega
    · have h2 := ih (l + a + 1) x hx
      simp only [List.sum_cons, List.length_cons] at *
      omega

theorem cll_last (text : Txt) :
    (cumulativeLineLengths text).getLast? = some (text.length + 1) := by
  rw [cll_eq, offs_last]
  have h := splitOnChar_sum '\n' text
  simp only [Option.some.injEq, List.length_map] at *
  omega

theorem cll_mem_le (text : Txt) (x : Nat) (hx : x ∈ cumulativeLineLengths text) :
    x ≤ text.length + 1 := by
  rw [cll_eq] at hx
  have h := offs_mem_le ((splitOnChar '\n' text).map List.length) 0 x hx
  have h2 := splitOnChar_sum '\n' text
  simp only [List.length_map] at *
  omega

theorem cll_getElem_le (text : Txt) (i x : Nat)
    (hx : (cumulativeLineLengths text)[i]? = some x) : x ≤ text.length + 1 := by
  rcases List.getElem?_eq_some.mp hx with ⟨h, rfl⟩
  exact cll_mem_le text _ (List.getElem_mem h)

theorem cll_mono (text : Txt) (i j : Nat) (hij : i ≤ j) (x y : Nat)
    (hx : (cumulativeLineLengths text)[i]? = some x)
    (hy : (cumulativeLineLengths text)[j]? = some y) : x ≤ y := by
  have hchain : List.Chain' (· ≤ ·) (cumulativeLineLengths text) := by
    rw [cll_eq]
    exact offs_chain _ 0
  have hpw := List.chain'_iff_pairwise.mp hchain
  rcases List.getElem?_eq_some.mp hx with ⟨hi, hxe⟩
  rcases List.getElem?_eq_some.mp hy with ⟨hj, hye⟩
  rcases Nat.lt_or_ge i j with hlt | hge
  · have h := List.pairwise_iff_getElem.mp hpw i j hi hj hlt
    rw [hxe, hye] at h
    exact h
  · have hij' : i = j := le_antisymm hij hge
    subst hij'
    rw [hxe] at hye
    omega

theorem fallbackEnd_ge (text : Txt) (sel : Selection) (sc ec : Nat)
    (hsc : startCharOf text sel = some sc)
    (hfb : fallbackEnd text sel = some ec) : sc ≤ ec := by
  have hb : sc ≤ text.length + 1 := by
    unfold startCharOf at hsc
    exact cll_getElem_le text _ sc hsc
  unfold fallbackEnd at hfb
  rw [hsc] at hfb
  dsimp only at hfb
  rcases hfind : List.find?
      (fun len => decide (min (sc + DEFAULT_EMBED_LENGTH) text.length < len))
      (cumulativeLineLengths text) with _ | v
  · rw [hfind] at hfb
    simp only [Option.orElse_none, Option.orElse] at hfb
    rw [cll_last] at hfb
    simp only [Option.some.injEq] at hfb
    omega
  · rw [hfind] at hfb
    simp only [Option.orElse, Option.some.injEq] at hfb
    have hp := List.find?_some hfind
    simp only [decide_eq_true_eq] at hp
    omega

theorem startChar_le_endChar (text : Txt) (sel : Selection) (sc ec : Nat)
    (hsc : startCharOf text sel = some sc)
    (hec : endCharOf text sel = some ec)
    (hinv : ∀ s e, sel.startLine = some s → sel.endLine = some e → s ≤ e) :
    sc ≤ ec := by
  unfold endCharOf at hec
  cases hel : sel.endLine with
  | none =>
    rw [hel] at hec
    exact fallbackEnd_ge text sel sc ec hsc hec
  | some e =>
    rw [hel] at hec
    dsimp only at hec
    by_cases he0 : e = 0
    · rw [if_pos he0] at hec
      exact fallbackEnd_ge text sel sc ec hsc hec
    · rw [if_neg he0] at hec
      have hidx : sel.startLine.getD 0 ≤ e := by
        cases hsl : sel.startLine with
        | none => simp
        | some s =>
          rw [Option.getD_some]
          exact hinv s e hsl hel
      unfold startCharOf at hsc
      exact cll_mono text _ e hidx sc ec hsc hec

/-- Claim C6: for every decoded text and data-model Selection (spec §3
invariant: when both `startLine` and `endLine` are set, `startLine ≤
endLine`), under the range-formatter contract (spec §4.3 step 4: content
outside the formatted `[startChar, endChar)` range is carried over
unchanged, so `pretty = text[0:startChar] ++ mid ++ text[endChar:]`), the
extracted snippet has length at most `MAX_EMBED_LENGTH` and
`startChar ≤ maxEnd`. -/
theorem c6_extract_bounded (text pretty mid : Txt) (sel : Selection) (sc ec : Nat)
    (hsc : startCharOf text sel = some sc)
    (hec : endCharOf text sel = some ec)
    (hinv : ∀ s e, sel.startLine = some s → sel.endLine = some e → s ≤ e)
    (hfmt : pretty = text.take sc ++ mid ++ text.drop ec) :
    (extractOf pretty text sc ec).length ≤ MAX_EMBED_LENGTH ∧
    (sc : Int) ≤ maxEndOf pretty text sc ec := by
  have hb : sc ≤ text.length + 1 := by
    have hsc' := hsc
    unfold startCharOf at hsc'
    exact cll_getElem_le text _ sc hsc'
  have hsec : sc ≤ ec := startChar_le_endChar text sel sc ec hsc hec hinv
  have hplen : pretty.length = min sc text.length + mid.length + (text.length - ec) := by
    rw [hfmt]
    simp only [List.length_append, List.length_take, List.length_drop]
  have hpe : (sc : Int) ≤ prettyEndOf pretty text ec := by
    unfold prettyEndOf
    rw [hplen]
    omega
  have hme1 : (sc : Int) ≤ maxEndOf pretty text sc ec := by
    unfold maxEndOf
    exact le_min hpe (by omega)
  have hme2 : maxEndOf pretty text sc ec ≤ (sc : Int) + (MAX_EMBED_LENGTH : Int) :=
    min_le_right _ _
  refine ⟨?_, hme1⟩
  unfold extractOf jsSlice
  have h0 : ¬ ((sc : Int) < 0) := by omega
  have h1 : ¬ (maxEndOf pretty text sc ec < 0) := by omega
  simp only [if_neg h0, if_neg h1]
  split
  · rw [List.length_drop, List.length_take]
    have ht : (min (maxEndOf pretty text sc ec) (pretty.length : Int)).toNat ≤
        sc + MAX_EMBED_LENGTH := by omega
    have hl : (min (sc : Int) (pretty.length : Int)).toNat = min sc pretty.length := by
      omega
    omega
  · simp

theorem c6_witness :
    startCharOf "a".data ⟨some 1, none, some 1, none⟩ = some 2 ∧
    endCharOf "a".data ⟨some 1, none, some 1, none⟩ = some 2 ∧
    (∀ s e, (⟨some 1, none, some 1, none⟩ : Selection).startLine = some s →
      (⟨some 1, none, some 1, none⟩ : Selection).endLine = some e → s ≤ e) ∧
    "a".data = "a".data.take 2 ++ [] ++ "a".data.drop 2 ∧
    (extractOf "a".data "a".data 2 2).length ≤ MAX_EMBED_LENGTH ∧
    ((2 : Nat) : Int) ≤ maxEndOf "a".data "a".data 2 2 := by
  have hinv : ∀ s e, (⟨some 1, none, some 1, none⟩ : Selection).startLine = some s →
      (⟨some 1, none, some 1, none⟩ : Selection).endLine = some e → s ≤ e := by
    intro s e hs he
    simp only [Option.some.injEq] at hs he
    omega
  have h := c6_extract_bounded "a".data "a".data [] ⟨some 1, none, some 1, none⟩ 2 2
    (by decide) (by decide) hinv (by decide)
  exact ⟨by decide, by decide, hinv, by decide, h.1, h.2⟩

theorem escapeCode_head (s : Txt) : (escapeCode s).head? = s.head? := by
  match s with
  | [] => rfl
  | [c] => rfl
  | c :: c' :: r =>
    simp only [escapeCode]
    split <;> rfl

theorem escapeCode_chain (s : Txt) : List.Chain' NoTickPair (escapeCode s) := by
  induction s with
  | nil => simp [escapeCode]
  | cons c rest ih =>
    cases rest with
    | nil => simp [escapeCode]
    | cons c' r =>
      simp only [escapeCode]
      split
    
      case isTrue h =>
        rw [List.chain'_cons]
        constructor
        · intro hcon
          exact absurd hcon.2 (by decide)
        · rw [List.chain'_cons']
          refine ⟨?_, ih⟩
          intro y _
          intro hcon
          exact absurd hcon.1 (by decide)
      case isFalse h =>
        rw [List.chain'_cons']
        refine ⟨?_, ih⟩
        intro y hy
        rw [escapeCode_head] at hy
        simp only [List.head?_cons, Option.mem_def, Option.some.injEq] at hy
        subst hy
        exact h

theorem chainTake {α : Type} (R : α → α → Prop) (l : List α) (h : List.Chain' R l) :
    ∀ n : Nat, List.Chain' R (l.take n) := by
  induction l with
  | nil => intro n; simp
  | cons a l ih =>
    intro n
    cases n with
    | zero => simp
    | succ m =>
      rw [List.take_succ_cons]
      cases l with
      | nil => simp
      | cons b l' =>
        rw [List.chain'_cons] at h
        cases m with
        | zero => simp
        | succ k =>
          rw [List.take_succ_cons, List.chain'_cons]
          have := ih h.2 (k + 1)
          rw [List.take_succ_cons] at this
          exact ⟨h.1, this⟩

theorem jsSlice_zero_nat (s : Txt) (k : Nat) : jsSlice s 0 (k : Int) = s.take k := by
  unfold jsSlice
  have h0 : ¬ ((0 : Int) < 0) := by omega
  have h1 : ¬ ((k : Int) < 0) := by omega
  simp only [if_neg h0, if_neg h1]
  have hmin0 : min (0 : Int) (s.length : Int) = 0 := by omega
  rw [hmin0]
  by_cases hk : 0 < min (k : Int) (s.length : Int)
  · rw [if_pos hk]
    have : (min (k : Int) (s.length : Int)).toNat = min k s.length := by omega
    rw [this]
    simp only [Int.toNat_zero, List.drop_zero]
    by_cases hks : k ≤ s.length
    · rw [min_eq_left hks]
    · rw [min_eq_right (by omega)]
      rw [List.take_length, List.take_of_length_le (by omega)]
  · rw [if_neg hk]
    have : k = 0 ∨ s.length = 0 := by omega
    rcases this with h | h
    · rw [h]; rfl
    · rw [List.eq_nil_of_length_eq_zero h]
      simp

/-- Claim C7: the rendered fenced block never exceeds `DISCORD_MAX_LENGTH`
(2048), and its content part contains no two adjacent backticks — the
escape inserts a zero-width space inside every backtick pair, so no run of
two or more backticks in the input can close the enclosing fence early. -/
theorem c7_codeblock_safe (code : Txt) :
    (makeCodeBlock code).length ≤ DISCORD_MAX_LENGTH ∧
    ∃ t, makeCodeBlock code = "```ts\n".data ++ t ++ "```".data ∧
      List.Chain' NoTickPair t := by
  have hmcl : MAX_CODE_LENGTH = 2039 := by decide
  dsimp only [makeCodeBlock]
  by_cases h : MAX_CODE_LENGTH < (escapeCode code).length
  · rw [if_pos h]
    have hsl : jsSlice (escapeCode code) 0 ((MAX_CODE_LENGTH : Int) - 1) =
        (escapeCode code).take 2038 := by
      rw [hmcl]
      have : ((2039 : Nat) : Int) - 1 = ((2038 : Nat) : Int) := by decide
      rw [this, jsSlice_zero_nat]
    rw [hsl]
    constructor
    · simp only [List.length_append, List.length_cons, List.length_take,
        List.length_nil]
      have hc : CODEBLOCK.length = 3 := by decide
      have hts : ("ts".data : Txt).length = 2 := by decide
      rw [hmcl] at h
      simp only [DISCORD_MAX_LENGTH, hc, hts]
      omega
    · refine ⟨(escapeCode code).take 2038 ++ ['…'], ?_, ?_⟩
      · simp only [List.append_assoc]
        rfl
      · rw [List.chain'_append]
        refine ⟨chainTake _ _ (escapeCode_chain code) 2038, by simp, ?_⟩
        intro x _ y hy
        simp only [List.head?_cons, Option.mem_def, Option.some.injEq] at hy
        subst hy
        intro hcon
        exact absurd hcon.2 (by decide)
  · rw [if_neg h]
    constructor
    · simp only [List.length_append, List.length_cons, List.length_nil]
      have hc : CODEBLOCK.length = 3 := by decide
      have hts : ("ts".data : Txt).length = 2 := by decide
      rw [hmcl] at h
      simp only [DISCORD_MAX_LENGTH, hc, hts]
      omega
    · refine ⟨escapeCode code, ?_, escapeCode_chain code⟩
      simp only [List.append_assoc]
      rfl

theorem escapeCode_strip (s : Txt) (h : '​' ∉ s) :
    (escapeCode s).filter (fun c => c != '​') = s := by
  induction s with
  | nil => rfl
  | cons c rest ih =>
    have hc : c ≠ '​' := fun hc => h (hc ▸ List.mem_cons_self c rest)
    have hrest : '​' ∉ rest := fun hr => h (List.mem_cons_of_mem c hr)
    cases rest with
    | nil =>
      simp only [escapeCode]
      rw [List.filter_cons_of_pos (by simpa using hc)]
      rfl
    | cons c' r =>
      simp only [escapeCode]
      split
      case isTrue hcc =>
        rw [List.filter_cons_of_pos (by simpa using hc),
          List.filter_cons_of_neg (by simp)]
        rw [ih hrest]
      case isFalse hcc =>
        rw [List.filter_cons_of_pos (by simpa using hc)]
        rw [ih hrest]

/-- Claim C10: for inputs containing no zero-width space, the escape
produces no two adjacent backticks, and deleting every zero-width space
from its output restores the input exactly — the escape is lossless. -/
theorem c10_escape_reversible (s : Txt) (h : '​' ∉ s) :
    List.Chain' NoTickPair (escapeCode s) ∧
    (escapeCode s).filter (fun c => c != '​') = s :=
  ⟨escapeCode_chain s, escapeCode_strip s h⟩

theorem c10_witness :
    '​' ∉ "a``b".data ∧
    List.Chain' NoTickPair (escapeCode "a``b".data) ∧
    (escapeCode "a``b".data).filter (fun c => c != '​') = "a``b".data := by
  have h : '​' ∉ "a``b".data := by decide
  exact ⟨h, (c10_escape_reversible "a``b".data h).1, (c10_escape_reversible "a``b".data h).2⟩
